import Mathlib

/-!
Verification of the TPU training-job provisioning scripts
(`tpu_automate_training.py` and `tpu_manager.py`).

The Python code is shallowly embedded: pure computations become Lean
functions, the bucket is an association list of object names to contents,
the local filesystem is a record of created directories and written files,
and the orchestrator (`main`) is a step list run against a collaborator
that may signal a failure at each stage.  Machine integers do not occur
(Python integers are unbounded), so `Nat`/`Int` are used directly.
-/

/-! ## String and path helpers (models of the Python library calls used) -/

/-- Model of the GCS prefix filter used by `client.list_blobs(bucket, prefix=...)`:
an object is listed when its name starts with the given string. -/
def hasPre (p s : String) : Bool := p.toList.isPrefixOf s.toList

/-- Model of Python `s.startswith('/')`. -/
def startsSlash (s : String) : Bool :=
  match s.toList.head? with
  | some c => c = '/'
  | none => false

/-- Model of Python `s.endswith('/')`. -/
def endsSlash (s : String) : Bool :=
  s.toList.getLast? == some '/'

/-- Model of two-argument `os.path.join(a, b)` on a POSIX system:
if `b` is absolute it replaces `a`; if `a` is empty or ends in the
separator the parts are concatenated; otherwise a separator is inserted. -/
def pathJoin (a b : String) : String :=
  if startsSlash b then b
  else if a = "" then b
  else if endsSlash a then a ++ b
  else a ++ "/" ++ b

/-- Characters removed by the Python call `root.strip('./')`. -/
def isDotOrSlash (c : Char) : Bool := c = '.' ∨ c = '/'

/-- Model of Python `root.strip('./')`: removes every leading and every
trailing character that is `'.'` or `'/'` (a character-set strip, not
removal of the two-character sequence `"./"`). -/
def stripDotSlash (s : String) : String :=
  String.mk (((s.toList.dropWhile isDotOrSlash).reverse.dropWhile isDotOrSlash).reverse)

/-- The characters of `cs` that precede the last `'/'`, or `none` when no
`'/'` occurs. -/
def beforeLastSlash : List Char → Option (List Char)
  | [] => none
  | c :: rest =>
    match beforeLastSlash rest with
    | some r => some (c :: r)
    | none => if c = '/' then some [] else none

/-- Model of Python `filepath.rsplit('/', 1).pop(0)`: everything before the
last `'/'`, or the whole string when it has no `'/'`. -/
def rsplitPop (s : String) : String :=
  match beforeLastSlash s.toList with
  | some r => String.mk r
  | none => s

/-! ## The address-sizing arithmetic (`tpu_automate_training.py`, line 178)

The CIDR size passed to `reserve_cidr` is
`33-(max(8, int(TPU_TYPE.split('-')[1])//CORE_RATIO).bit_length())`.
Python subtraction is over the (unbounded) integers, so the result is an
`Int`. -/

/-- Model of Python `n.bit_length()`: `0` for `0`, otherwise one more than
the bit length of `n / 2`. -/
def bit_length (n : Nat) : Nat :=
  if h : n = 0 then 0 else bit_length (n / 2) + 1
termination_by n
decreasing_by exact Nat.div_lt_self (Nat.pos_of_ne_zero h) (by decide)

theorem bit_length_eq (n : Nat) : bit_length n = if n = 0 then 0 else bit_length (n / 2) + 1 := by
  by_cases h : n = 0
  · rw [bit_length]; simp [h]
  · rw [bit_length]; simp [h]

theorem bit_length_le_iff (n k : Nat) : bit_length n ≤ k ↔ n < 2 ^ k := by
  induction n using Nat.strong_induction_on generalizing k with
  | _ n ih =>
    match n with
    | 0 =>
      rw [bit_length_eq]
      simp [Nat.two_pow_pos]
    | n + 1 =>
      rw [bit_length_eq]
      simp only [Nat.succ_ne_zero, if_false]
      match k with
      | 0 => simp
      | k + 1 =>
        rw [Nat.succ_le_succ_iff, ih ((n + 1) / 2) (Nat.div_lt_self (Nat.succ_pos n) (by decide)) k,
          Nat.div_lt_iff_lt_mul (by decide : 0 < 2), ← pow_succ]

/-- Modelled from the spec: `bitLength(n)` is "the number of bits needed to
represent `n` in unsigned binary", i.e. the least `k` with `n < 2 ^ k`. -/
def bitsNeeded (n : Nat) : Nat :=
  Nat.find (⟨n, Nat.lt_two_pow n⟩ : ∃ k, n < 2 ^ k)

theorem bitsNeeded_eq_bit_length (n : Nat) : bitsNeeded n = bit_length n := by
  rw [bitsNeeded, Nat.find_eq_iff]
  refine ⟨(bit_length_le_iff n (bit_length n)).1 (le_refl _), ?_⟩
  intro m hm hcon
  exact absurd ((bit_length_le_iff n m).2 hcon) (by omega)

/-- The CIDR size expression of `tpu_automate_training.py` line 178, as a
function of the requested core count and the core ratio. -/
def addressSize (cores r : Nat) : Int :=
  33 - (bit_length (max 8 (cores / r)) : Int)

/-- Model of Python `s.split('-')`: the maximal `'-'`-free runs of the
string, as character lists. -/
def splitDash : List Char → List (List Char)
  | [] => [[]]
  | c :: rest =>
    if c = '-' then [] :: splitDash rest
    else
      match splitDash rest with
      | [] => [[c]]
      | h :: t2 => (c :: h) :: t2

/-- Decimal digit accumulation for `int(...)`. -/
def parseNatAux : List Char → Nat → Option Nat
  | [], acc => some acc
  | c :: rest, acc =>
    if c.isDigit then parseNatAux rest (acc * 10 + (c.toNat - '0'.toNat)) else none

/-- Model of Python `int(s)` on a plain decimal-digit string. -/
def parseNat : List Char → Option Nat
  | [] => none
  | c :: rest => parseNatAux (c :: rest) 0

/-- Model of `int(TPU_TYPE.split('-')[1])` for well-formed accelerator type
strings such as `"v2-8"` (a parse failure raises in Python and is outside
the modelled domain, mapped to `0` here). -/
def coresOfTpuType (t : String) : Nat :=
  (parseNat ((splitDash t.toList).getD 1 [])).getD 0

/-- `CORE_RATIO` constant of `tpu_automate_training.py` line 56. -/
def coreRatio : Nat := 4

/-! ### C1 and C2 -/

/-- C1: for every positive core count and positive ratio, the address-sizing
computation returns exactly `33 - bitLength(max(8, cores // R))` where
`bitLength` is the number of bits needed to represent the value in unsigned
binary, and in particular `cores = 8`, `R = 4` yields `29`. -/
theorem addressSize_matches_spec (cores r : Nat) (hc : 0 < cores) (hr : 0 < r) :
    addressSize cores r = 33 - (bitsNeeded (max 8 (cores / r)) : Int) ∧
    addressSize 8 4 = 29 := by
  constructor
  · rw [addressSize, bitsNeeded_eq_bit_length]
  · have h8 : bit_length 8 = 4 := by
      rw [bit_length_eq]; norm_num
      rw [bit_length_eq]; norm_num
      rw [bit_length_eq]; norm_num
      rw [bit_length_eq]; norm_num
      rw [bit_length_eq]
      norm_num
    rw [addressSize]
    norm_num [h8]

theorem addressSize_matches_spec_witness :
    0 < 8 ∧ 0 < 4 ∧
    (addressSize 8 4 = 33 - (bitsNeeded (max 8 (8 / 4)) : Int) ∧ addressSize 8 4 = 29) :=
  ⟨by decide, by decide, addressSize_matches_spec 8 4 (by decide) (by decide)⟩

/-- C2 (counterexample): at `cores = 2^32`, `R = 1` — both positive — the
computed value is `0`, which does not lie in the interval `[1, 32]`. -/
theorem addressSize_out_of_range_cex :
    0 < 2 ^ 32 ∧ 0 < 1 ∧ addressSize (2 ^ 32) 1 = 0 ∧
    ¬ (1 ≤ addressSize (2 ^ 32) 1 ∧ addressSize (2 ^ 32) 1 ≤ 32) := by
  have hbl : bit_length (2 ^ 32) = 33 := by
    have h1 : bit_length (2 ^ 32) ≤ 33 := (bit_length_le_iff _ _).2 (by norm_num)
    have h2 : ¬ bit_length (2 ^ 32) ≤ 32 := by
      intro h
      have := (bit_length_le_iff (2 ^ 32) 32).1 h
      omega
    omega
  have hmax : max 8 (2 ^ 32 / 1) = 2 ^ 32 := by
    rw [Nat.div_one]
    exact max_eq_right (by norm_num)
  have hv : addressSize (2 ^ 32) 1 = 0 := by
    rw [addressSize, hmax, hbl]
    norm_num
  refine ⟨by norm_num, by norm_num, hv, ?_⟩
  rw [hv]
  intro h
  omega

/-- C2 (amended): for all positive `cores` and `R` with `cores / R < 2^32`,
the computed value lies in `[1, 32]` (in fact in `[1, 29]`); without a bound
on `cores / R` the expression can leave the interval. -/
theorem addressSize_range (cores r : Nat) (hc : 0 < cores) (hr : 0 < r)
    (hbound : cores / r < 2 ^ 32) :
    1 ≤ addressSize cores r ∧ addressSize cores r ≤ 32 := by
  have hmax8 : 8 ≤ max 8 (cores / r) := le_max_left _ _
  have hmaxlt : max 8 (cores / r) < 2 ^ 32 := max_lt (by norm_num) hbound
  have h1 : bit_length (max 8 (cores / r)) ≤ 32 := (bit_length_le_iff _ _).2 hmaxlt
  have h2 : 4 ≤ bit_length (max 8 (cores / r)) := by
    by_contra h
    push_neg at h
    have h3 := (bit_length_le_iff (max 8 (cores / r)) 3).1 (by omega)
    have h4 : (2 : Nat) ^ 3 = 8 := by norm_num
    rw [h4] at h3
    omega
  rw [addressSize]
  omega

theorem addressSize_range_witness :
    0 < 8 ∧ 0 < 4 ∧ 8 / 4 < 2 ^ 32 ∧
    (1 ≤ addressSize 8 4 ∧ addressSize 8 4 ≤ 32) :=
  ⟨by decide, by decide, by norm_num, addressSize_range 8 4 (by decide) (by decide) (by norm_num)⟩

/-! ## Storage model: buckets and the local filesystem

A bucket is an association list from object names to contents.  An upload
with an existing key replaces the prior entry (GCS overwrite semantics). -/

/-! ### `delete_blobs` (`tpu_manager.py`, lines 59-76) -/

/-- Model of `tpu_manager.delete_blobs`: refuses an empty prefix unless
`delete_all=True`; otherwise removes every object whose name has the given
prefix (the `list_blobs(prefix=...)` listing) and returns the remaining
object names. -/
def delete_blobs (bucket : List String) (pre : String) (delete_all : Bool) :
    Except String (List String) :=
  if pre = "" ∧ delete_all = false then
    Except.error "You must specify both an empty prefix and delete_all=True to delete all objects from the bucket."
  else
    Except.ok (bucket.filter (fun b => !(hasPre pre b)))

/-- The bucket state after a `delete_blobs` call: unchanged when the call
raised (the guard fires before any deletion), otherwise the remaining
objects. -/
def deleteBlobsRun (bucket : List String) (pre : String) (delete_all : Bool) : List String :=
  match delete_blobs bucket pre delete_all with
  | Except.ok r => r
  | Except.error _ => bucket

theorem hasPre_empty (s : String) : hasPre "" s = true := by
  have h : "".toList = [] := rfl
  rw [hasPre, h]
  cases s.toList <;> rfl

/-- C5: `delete_blobs` with an empty prefix and `delete_all=False` always
fails (a `ValueError` in the source) and deletes nothing; with an empty
prefix and `delete_all=True` it deletes every object in the container. -/
theorem delete_blobs_empty_guard (bucket : List String) :
    (∃ m, delete_blobs bucket "" false = Except.error m) ∧
    deleteBlobsRun bucket "" false = bucket ∧
    delete_blobs bucket "" true = Except.ok [] := by
  refine ⟨⟨_, rfl⟩, rfl, ?_⟩
  rw [delete_blobs]
  norm_num
  intro a _
  simp [hasPre_empty]

/-! ### `upload_dir` (`tpu_manager.py`, lines 93-103)

The local directory passed to `os.walk` is modelled as a tree of files
(name and content) and named subtrees.  `walk top tree` produces the
`(root, files)` pairs in the top-down order `os.walk` uses. -/

mutual
inductive FTree where
  | node : List (String × String) → FForest → FTree
inductive FForest where
  | nil : FForest
  | cons : String → FTree → FForest → FForest
end

mutual
def walk (top : String) : FTree → List (String × List (String × String))
  | FTree.node files subdirs => (top, files) :: walkForest top subdirs
def walkForest (top : String) : FForest → List (String × List (String × String))
  | FForest.nil => []
  | FForest.cons d t rest => walk (pathJoin top d) t ++ walkForest top rest
end

/-- Entries of `b` other than key `k` (the effect of overwriting `k`). -/
def bucketErase : List (String × String) → String → List (String × String)
  | [], _ => []
  | (k2, v) :: rest, k => if k2 = k then bucketErase rest k else (k2, v) :: bucketErase rest k

/-- Model of `blob.upload_from_filename` / object write: the key `k` now
maps to `v`, replacing any prior entry for `k`. -/
def bucketWrite (b : List (String × String)) (k v : String) : List (String × String) :=
  (k, v) :: bucketErase b k

/-- Content stored under key `k`, if any. -/
def bucketLookup : List (String × String) → String → Option String
  | [], _ => none
  | (k2, v) :: rest, k => if k2 = k then some v else bucketLookup rest k

/-- The inner loop of `upload_dir`: upload every file of one walk root,
where `key0` is `os.path.join(folder, root.strip('./'))`. -/
def uploadFiles (key0 : String) : List (String × String) → List (String × String) → List (String × String)
  | [], b => b
  | (name, content) :: rest, b => uploadFiles key0 rest (bucketWrite b (pathJoin key0 name) content)

/-- The outer loop of `upload_dir` over the walk entries. -/
def uploadWalk (folder : String) : List (String × List (String × String)) → List (String × String) → List (String × String)
  | [], b => b
  | (root, files) :: rest, b =>
      uploadWalk folder rest (uploadFiles (pathJoin folder (stripDotSlash root)) files b)

/-- Model of `tpu_manager.upload_dir`: for every `root, files` of
`os.walk(source)` and every file, write the object whose key is
`os.path.join(folder, root.strip('./'), file)`. -/
def upload_dir (bucket : List (String × String)) (source : String) (tree : FTree) (folder : String) :
    List (String × String) :=
  uploadWalk folder (walk source tree) bucket

/-- Modelled from the spec: the walk root normalized by removing a leading
`"./"` only, so that `specRelKey` is "the file's relative path (optionally
prefixed by the given folder)" promised by the spec. -/
def dropDotSlash (s : String) : String :=
  match s.toList with
  | '.' :: '/' :: rest => String.mk rest
  | _ => s

/-- Modelled from the spec: the object key the spec promises for a file. -/
def specRelKey (folder root name : String) : String :=
  pathJoin (pathJoin folder (dropDotSlash root)) name

theorem mem_keys_bucketErase (k k2 : String) :
    ∀ b : List (String × String),
      k2 ∈ (bucketErase b k).map Prod.fst ↔ k2 ∈ b.map Prod.fst ∧ k2 ≠ k := by
  intro b
  induction b with
  | nil => simp [bucketErase]
  | cons p rest ih =>
    obtain ⟨pk, pv⟩ := p
    by_cases h : pk = k
    · subst h
      rw [bucketErase, if_pos rfl, ih]
      simp only [List.map_cons, List.mem_cons]
      constructor
      · rintro ⟨hm, hne⟩
        exact ⟨Or.inr hm, hne⟩
      · rintro ⟨hd | hm, hne⟩
        · exact absurd hd hne
        · exact ⟨hm, hne⟩
    · rw [bucketErase, if_neg h]
      simp only [List.map_cons, List.mem_cons, ih]
      constructor
      · rintro (rfl | ⟨hm, hne⟩)
        · exact ⟨Or.inl rfl, h⟩
        · exact ⟨Or.inr hm, hne⟩
      · rintro ⟨hd, hne⟩
        rcases hd with rfl | hm
        · exact Or.inl rfl
        · exact Or.inr ⟨hm, hne⟩

theorem mem_keys_bucketWrite (b : List (String × String)) (k v k2 : String) :
    k2 ∈ (bucketWrite b k v).map Prod.fst ↔ k2 = k ∨ k2 ∈ b.map Prod.fst := by
  rw [bucketWrite]
  simp only [List.map_cons, List.mem_cons, mem_keys_bucketErase]
  constructor
  · rintro (rfl | ⟨hm, _⟩)
    · exact Or.inl rfl
    · exact Or.inr hm
  · rintro (rfl | hm)
    · exact Or.inl rfl
    · by_cases hk : k2 = k
      · exact Or.inl hk
      · exact Or.inr ⟨hm, hk⟩

theorem bucketLookup_erase (k k2 : String) (h : k2 ≠ k) :
    ∀ b : List (String × String), bucketLookup (bucketErase b k) k2 = bucketLookup b k2 := by
  intro b
  induction b with
  | nil => rfl
  | cons p rest ih =>
    obtain ⟨pk, pv⟩ := p
    by_cases hpk : pk = k
    · subst hpk
      rw [bucketErase, if_pos rfl, ih, bucketLookup, if_neg (fun he => h he.symm)]
    · rw [bucketErase, if_neg hpk, bucketLookup, bucketLookup]
      by_cases hp2 : pk = k2
      · rw [if_pos hp2, if_pos hp2]
      · rw [if_neg hp2, if_neg hp2, ih]

theorem bucketLookup_write_self (b : List (String × String)) (k v : String) :
    bucketLookup (bucketWrite b k v) k = some v := by
  rw [bucketWrite, bucketLookup, if_pos rfl]

theorem bucketLookup_write_other (b : List (String × String)) (k v k2 : String) (h : k2 ≠ k) :
    bucketLookup (bucketWrite b k v) k2 = bucketLookup b k2 := by
  rw [bucketWrite, bucketLookup, if_neg (fun he => h he.symm), bucketLookup_erase k k2 h]

theorem keys_mono_uploadFiles (key0 : String) :
    ∀ (fs b : List (String × String)) (k2 : String),
      k2 ∈ b.map Prod.fst → k2 ∈ (uploadFiles key0 fs b).map Prod.fst := by
  intro fs
  induction fs with
  | nil => intro b k2 h; exact h
  | cons f rest ih =>
    obtain ⟨name, content⟩ := f
    intro b k2 h
    rw [uploadFiles]
    exact ih _ _ ((mem_keys_bucketWrite b (pathJoin key0 name) content k2).2 (Or.inr h))

theorem mem_uploadFiles (key0 : String) :
    ∀ (fs b : List (String × String)) (name content : String), (name, content) ∈ fs →
      pathJoin key0 name ∈ (uploadFiles key0 fs b).map Prod.fst := by
  intro fs
  induction fs with
  | nil =>
    intro b name content h
    cases h
  | cons f rest ih =>
    intro b name content h
    obtain ⟨fn, fc⟩ := f
    rw [uploadFiles]
    rcases List.mem_cons.1 h with he | hm
    · injection he with h1 h2
      subst h1
      exact keys_mono_uploadFiles key0 rest _ _
        ((mem_keys_bucketWrite b (pathJoin key0 name) fc (pathJoin key0 name)).2 (Or.inl rfl))
    · exact ih _ _ _ hm

theorem keys_mono_uploadWalk (folder : String) :
    ∀ (es : List (String × List (String × String))) (b : List (String × String)) (k2 : String),
      k2 ∈ b.map Prod.fst → k2 ∈ (uploadWalk folder es b).map Prod.fst := by
  intro es
  induction es with
  | nil => intro b k2 h; exact h
  | cons e rest ih =>
    obtain ⟨root, files⟩ := e
    intro b k2 h
    rw [uploadWalk]
    exact ih _ _ (keys_mono_uploadFiles _ _ _ _ h)

theorem mem_uploadWalk (folder : String) :
    ∀ (es : List (String × List (String × String))) (b : List (String × String))
      (root : String) (files : List (String × String)) (name content : String),
      (root, files) ∈ es → (name, content) ∈ files →
      pathJoin (pathJoin folder (stripDotSlash root)) name ∈ (uploadWalk folder es b).map Prod.fst := by
  intro es
  induction es with
  | nil =>
    intro b root files name content h _
    cases h
  | cons e rest ih =>
    intro b root files name content h hf
    obtain ⟨er, efs⟩ := e
    rw [uploadWalk]
    rcases List.mem_cons.1 h with he | hm
    · injection he with h1 h2
      subst h1
      subst h2
      exact keys_mono_uploadWalk folder rest _ _ (mem_uploadFiles _ _ _ _ _ hf)
    · exact ih _ _ _ _ _ hm hf

/-! ### C8 -/

/-- C8 (amended): `upload_dir` walks the source tree recursively and uploads every
file; the object key of a file is `os.path.join(folder, R, name)` where `R` is the
walk root with all leading and trailing `'.'` and `'/'` characters stripped — this
equals the file's relative path (under `folder`) exactly when that stripping only
removes the leading `"./"`; and an upload with an existing key replaces the prior
content (idempotent overwrite). -/
theorem upload_dir_keys (bucket : List (String × String)) (source folder : String) (tree : FTree)
    (root : String) (files : List (String × String)) (name content : String)
    (hw : (root, files) ∈ walk source tree) (hf : (name, content) ∈ files) :
    pathJoin (pathJoin folder (stripDotSlash root)) name ∈
      (upload_dir bucket source tree folder).map Prod.fst ∧
    (stripDotSlash root = dropDotSlash root →
      pathJoin (pathJoin folder (stripDotSlash root)) name = specRelKey folder root name) ∧
    (∀ (b : List (String × String)) (k v : String),
      bucketLookup (bucketWrite b k v) k = some v ∧
      ∀ k2, k2 ≠ k → bucketLookup (bucketWrite b k v) k2 = bucketLookup b k2) := by
  refine ⟨mem_uploadWalk folder (walk source tree) bucket root files name content hw hf, ?_, ?_⟩
  · intro h
    rw [specRelKey, h]
  · intro b k v
    exact ⟨bucketLookup_write_self b k v, fun k2 h2 => bucketLookup_write_other b k v k2 h2⟩

/-- A source tree containing one subdirectory `w.` with a single file `f`;
the Python `root.strip('./')` corrupts such roots. -/
def mTree : FTree := FTree.node [] (FForest.cons "w." (FTree.node [("f", "c")] FForest.nil) FForest.nil)

/-- C8 (counterexample): uploading a tree whose subdirectory is named `w.`
stores the file under key `data/w/f` — the trailing `'.'` of the directory is
eaten by `root.strip('./')` — while the file's relative path is `data/w./f`,
which is bound to no object. -/
theorem upload_key_mismatch_cex :
    upload_dir [] "./data" mTree "" = [("data/w/f", "c")] ∧
    ("./data/w.", [("f", "c")]) ∈ walk "./data" mTree ∧
    specRelKey "" "./data/w." "f" = "data/w./f" ∧
    "data/w./f" ∉ (upload_dir [] "./data" mTree "").map Prod.fst := by
  refine ⟨rfl, ?_, rfl, ?_⟩
  · have h : walk "./data" mTree = [("./data", []), ("./data/w.", [("f", "c")])] := rfl
    rw [h]
    simp
  · have h : (upload_dir [] "./data" mTree "").map Prod.fst = ["data/w/f"] := rfl
    rw [h]
    simp

/-- A normal source tree: one file directly under `./data`. -/
def wTree : FTree := FTree.node [("train.bin", "bytes")] FForest.nil

theorem upload_dir_keys_witness :
    ("./data", [("train.bin", "bytes")]) ∈ walk "./data" wTree ∧
    ("train.bin", "bytes") ∈ [("train.bin", "bytes")] ∧
    pathJoin (pathJoin "" (stripDotSlash "./data")) "train.bin" ∈
      (upload_dir [] "./data" wTree "").map Prod.fst ∧
    (stripDotSlash "./data" = dropDotSlash "./data" →
      pathJoin (pathJoin "" (stripDotSlash "./data")) "train.bin" = specRelKey "" "./data" "train.bin") := by
  have hw : walk "./data" wTree = [("./data", [("train.bin", "bytes")])] := rfl
  have h := upload_dir_keys [] "./data" "" wTree "./data" [("train.bin", "bytes")] "train.bin" "bytes"
    (by rw [hw]; simp) (by simp)
  exact ⟨by rw [hw]; simp, by simp, h.1, h.2.1⟩

/-! ### `download_blobs` (`tpu_manager.py`, lines 107-131)

The local filesystem is modelled as the set of directories created with
`os.makedirs` and the files written with `blob.download_to_filename`.
`os.makedirs(..., exist_ok=True)` is recorded as the target directory path
(intermediate ancestors are not tracked — no claim depends on them). -/

structure LocalFS where
  dirs : List String
  files : List (String × String)

/-- Writing a local file overwrites any prior file at the same path. -/
def fsWrite (fs : LocalFS) (p content : String) : LocalFS :=
  ⟨fs.dirs, bucketWrite fs.files p content⟩

/-- The loop body of `download_blobs` over the listed blobs, in order:
compute `filepath`, `os.makedirs(filepath.rsplit('/', 1).pop(0))`, then
download unless the object name ends in `'/'`; a download whose target path
is an existing directory raises (`IsADirectoryError`, re-raised with the
bucket message). -/
def downloadGo (localDir : String) : List (String × String) → LocalFS → Except String LocalFS
  | [], fs => Except.ok fs
  | (name, content) :: rest, fs =>
    let fp := pathJoin localDir name
    let fs1 : LocalFS := ⟨rsplitPop fp :: fs.dirs, fs.files⟩
    if endsSlash name then downloadGo localDir rest fs1
    else if fs1.dirs.contains fp then
      Except.error "Cannot download the contents of the bucket. Unix file systems do not allow files and folders to have the same name."
    else downloadGo localDir rest (fsWrite fs1 fp content)

/-- Model of `tpu_manager.download_blobs`: process every object whose name
has the requested prefix (the `list_blobs(prefix=...)` listing), starting
from a fresh local state. -/
def download_blobs (bucket : List (String × String)) (pre localDir : String) :
    Except String LocalFS :=
  downloadGo localDir (bucket.filter (fun o => hasPre pre o.1)) ⟨[], []⟩

theorem endsSlash_append (a b : String) (h : b ≠ "") : endsSlash (a ++ b) = endsSlash b := by
  have hb : b.toList ≠ [] := by
    intro hnil
    apply h
    cases b with
    | mk d =>
      have hd : d = [] := hnil
      rw [hd]
  obtain ⟨x, hx⟩ := Option.isSome_iff_exists.1 (List.getLast?_isSome.2 hb)
  rw [endsSlash, endsSlash]
  have hd2 : (a ++ b).toList = a.toList ++ b.toList := rfl
  rw [hd2, List.getLast?_append, hx]
  rfl

theorem pathJoin_endsSlash (a b : String) (h : b ≠ "") :
    endsSlash (pathJoin a b) = endsSlash b := by
  rw [pathJoin]
  by_cases h1 : startsSlash b = true
  · rw [if_pos h1]
  · rw [if_neg h1]
    by_cases h2 : a = ""
    · rw [if_pos h2]
    · rw [if_neg h2]
      by_cases h3 : endsSlash a = true
      · rw [if_pos h3, endsSlash_append a b h]
      · rw [if_neg h3, String.append_assoc, endsSlash_append a ("/" ++ b) (by
          intro hc
          apply h
          have hc2 : ("/" ++ b).toList = [] := by rw [hc]; rfl
          have hc3 : '/' :: b.toList = [] := hc2
          exact absurd hc3 (List.cons_ne_nil _ _)), endsSlash_append "/" b h]

theorem downloadGo_spec (localDir : String) :
    ∀ (l : List (String × String)) (fs fsf : LocalFS),
      downloadGo localDir l fs = Except.ok fsf →
      (∀ p, p ∈ l → p.1 ≠ "") →
      (∀ k, k ∈ fs.files.map Prod.fst → endsSlash k = false) →
      (∀ d, d ∈ fs.dirs → d ∈ fsf.dirs) ∧
      (∀ k, k ∈ fs.files.map Prod.fst → k ∈ fsf.files.map Prod.fst) ∧
      (∀ k, k ∈ fsf.files.map Prod.fst → endsSlash k = false) ∧
      (∀ name content, (name, content) ∈ l →
        rsplitPop (pathJoin localDir name) ∈ fsf.dirs ∧
        (endsSlash name = false → pathJoin localDir name ∈ fsf.files.map Prod.fst)) := by
  intro l
  induction l with
  | nil =>
    intro fs fsf h hne hinv
    rw [downloadGo] at h
    injection h with h
    subst h
    exact ⟨fun d hd => hd, fun k hk => hk, hinv, fun name content hm => absurd hm (List.not_mem_nil _)⟩
  | cons p rest ih =>
    obtain ⟨name, content⟩ := p
    intro fs fsf h hne hinv
    have hname : name ≠ "" := hne (name, content) (List.mem_cons_self _ _)
    rw [downloadGo] at h
    simp only [] at h
    by_cases hslash : endsSlash name = true
    · rw [if_pos hslash] at h
      obtain ⟨hdirs, hfiles, hinvf, hitems⟩ :=
        ih ⟨rsplitPop (pathJoin localDir name) :: fs.dirs, fs.files⟩ fsf h
          (fun q hq => hne q (List.mem_cons_of_mem _ hq)) hinv
      refine ⟨fun d hd => hdirs d (List.mem_cons_of_mem _ hd), hfiles, hinvf, ?_⟩
      intro n c hm
      rcases List.mem_cons.1 hm with he | hm2
      · injection he with h1 h2
        subst h1
        refine ⟨hdirs _ (List.mem_cons_self _ _), ?_⟩
        intro hf
        rw [hslash] at hf
        exact Bool.noConfusion hf
      · exact hitems n c hm2
    · rw [if_neg hslash] at h
      have hslash' : endsSlash name = false := by
        cases he : endsSlash name
        · rfl
        · exact absurd he hslash
      by_cases hcon :
          ((⟨rsplitPop (pathJoin localDir name) :: fs.dirs, fs.files⟩ : LocalFS).dirs.contains
            (pathJoin localDir name)) = true
      · rw [if_pos hcon] at h
        exact absurd h (by simp)
      · rw [if_neg hcon] at h
        have hfp : endsSlash (pathJoin localDir name) = false := by
          rw [pathJoin_endsSlash localDir name hname, hslash']
        obtain ⟨hdirs, hfiles, hinvf, hitems⟩ :=
          ih (fsWrite ⟨rsplitPop (pathJoin localDir name) :: fs.dirs, fs.files⟩
                (pathJoin localDir name) content) fsf h
            (fun q hq => hne q (List.mem_cons_of_mem _ hq))
            (by
              intro k hk
              rcases (mem_keys_bucketWrite fs.files (pathJoin localDir name) content k).1 hk with
                rfl | hk2
              · exact hfp
              · exact hinv k hk2)
        refine ⟨fun d hd => hdirs d (List.mem_cons_of_mem _ hd),
          fun k hk =>
            hfiles k ((mem_keys_bucketWrite fs.files (pathJoin localDir name) content k).2 (Or.inr hk)),
          hinvf, ?_⟩
        intro n c hm
        rcases List.mem_cons.1 hm with he | hm2
        · injection he with h1 h2
          subst h1
          exact ⟨hdirs _ (List.mem_cons_self _ _),
            fun _ =>
              hfiles _
                ((mem_keys_bucketWrite fs.files (pathJoin localDir n) content
                  (pathJoin localDir n)).2 (Or.inl rfl))⟩
        · exact hitems n c hm2

/-! ### C10 -/

/-- C10: for every listed object whose name ends in `'/'`, `download_blobs`
writes no local file for it and only creates the corresponding local
directory path; every other listed object is downloaded to a file whose
parent directory path was created.  Object names are assumed nonempty (GCS
object names always are). -/
theorem download_folder_objects (bucket : List (String × String)) (pre localDir : String)
    (fs : LocalFS) (hok : download_blobs bucket pre localDir = Except.ok fs)
    (hne : ∀ p, p ∈ bucket → p.1 ≠ "") :
    ∀ name content, (name, content) ∈ bucket → hasPre pre name = true →
      (endsSlash name = true →
        pathJoin localDir name ∉ fs.files.map Prod.fst ∧
        rsplitPop (pathJoin localDir name) ∈ fs.dirs) ∧
      (endsSlash name = false →
        pathJoin localDir name ∈ fs.files.map Prod.fst ∧
        rsplitPop (pathJoin localDir name) ∈ fs.dirs) := by
  rw [download_blobs] at hok
  obtain ⟨_, _, hinvf, hitems⟩ :=
    downloadGo_spec localDir (bucket.filter (fun o => hasPre pre o.1)) ⟨[], []⟩ fs hok
      (fun q hq => hne q (List.mem_filter.1 hq).1)
      (by intro k hk; simp at hk)
  intro name content hm hp
  have hmem : (name, content) ∈ bucket.filter (fun o => hasPre pre o.1) :=
    List.mem_filter.2 ⟨hm, hp⟩
  have hit := hitems name content hmem
  have hname : name ≠ "" := hne (name, content) hm
  constructor
  · intro hs
    refine ⟨?_, hit.1⟩
    intro hf
    have hcon := hinvf _ hf
    rw [pathJoin_endsSlash localDir name hname, hs] at hcon
    exact Bool.noConfusion hcon
  · intro hs
    exact ⟨hit.2 hs, hit.1⟩

theorem download_folder_objects_witness :
    pathJoin "results-j" "output/" ∉
      (⟨["results-j/output", "results-j/output"],
        [("results-j/output/model.ckpt", "w1")]⟩ : LocalFS).files.map Prod.fst ∧
    rsplitPop (pathJoin "results-j" "output/") ∈
      (⟨["results-j/output", "results-j/output"],
        [("results-j/output/model.ckpt", "w1")]⟩ : LocalFS).dirs := by
  have h := download_folder_objects [("output/", "x"), ("output/model.ckpt", "w1")] "output/"
    "results-j"
    ⟨["results-j/output", "results-j/output"], [("results-j/output/model.ckpt", "w1")]⟩
    (by rfl) (by decide) "output/" "x" (by simp) (by rfl)
  exact h.1 rfl

/-! ## The orchestrator (`tpu_automate_training.py`, `main`)

`main` is a fixed sequence of calls into the cloud services.  Each observable
call is an `Event`; the run is driven against a `Collab` — a failure-injection
oracle telling, for each stage, whether the external collaborator raises and
with which message.  A raised stage either re-raises a fixed stage message
(the `except Exception: raise Exception(...)` blocks), re-raises the original
error unchanged (stages without a `try` block), or — for the training stage
only — logs and continues. -/

inductive Event where
  | preprocess : Event
  | createBucket : String → String → Event
  | uploadDir : String → Event
  | reserveCidr : String → Int → Option String → Event
  | createNode : String → Event
  | grantAccess : String → String → Event
  | runJob : Event
  | logJobFailure : String → Event
  | deleteNode : String → Event
  | releaseCidr : String → Event
  | downloadBlobs : String → String → Event
  | deleteBlobs : String → Event
deriving DecidableEq

inductive StageId where
  | preprocessStage
  | bucketStage
  | uploadStage
  | reserveStage
  | nodeSubmitStage
  | nodePollStage
  | grantStage
  | jobStage
  | deleteNodeStage
  | releaseStage
  | downloadStage
  | deleteBlobsStage
deriving DecidableEq

/-- Failure injection: the error message the external collaborator raises at
a given stage, if any. -/
def Collab : Type := StageId → Option String

/-- A collaborator that never fails. -/
def collabOK : Collab := fun _ => none

/-- A collaborator that fails exactly at stage `s` with message `m`. -/
def failAt (s : StageId) (m : String) : Collab :=
  fun s2 => if s2 = s then some m else none

/-- One step of `main`: an observable call with how its failure is handled.
`call e err w`: the call raises `w` if the code wraps it in a
`try/except` (with a fixed replacement message), otherwise re-raises the
original error.  `callLogged` (the training stage) logs the failure and
continues.  `poll` is the node-creation polling loop, which emits no call
of its own but can raise unwrapped. -/
inductive StageSpec where
  | call : Event → Option String → Option String → StageSpec
  | callLogged : Event → Option String → StageSpec
  | poll : Option String → StageSpec

def runSteps : List Event → List StageSpec → Except String (List Event)
  | t, [] => Except.ok t
  | t, StageSpec.call e err w :: rest =>
    match err with
    | none => runSteps (t ++ [e]) rest
    | some m => Except.error (w.getD m)
  | t, StageSpec.callLogged e err :: rest =>
    match err with
    | none => runSteps (t ++ [e]) rest
    | some m => runSteps (t ++ [e, Event.logJobFailure m]) rest
  | t, StageSpec.poll err :: rest =>
    match err with
    | none => runSteps t rest
    | some m => Except.error m

/-- The environment-derived module constants of `tpu_automate_training.py`
(lines 37-52). -/
structure Config where
  PROJECT : String
  NETWORK : String
  ZONE : String
  TPU_TYPE : String
  FRAMEWORK : String
  JOB_ID : String
  PREEMPTIBLE_TPU : Bool
  RESERVED_TPU : Bool
  TPU_ADDRESS : String
  STORAGE_LOCATION : String
  PREPROCESS : Bool
  DATA_DIR : String
  OUTPUT_DIR : String

/-- Model of `os.environ.get('TPU_ADDRESS', 'None')` (line 46): the value of
the environment variable, or the string literal `"None"` when it is unset. -/
def tpuAddressValue (env : Option String) : String := env.getD "None"

/-- Python truthiness of the `address` argument inside `reserve_cidr`
(lines 151-154): the `address` key is added to the request body only when
the argument is truthy (`None` and the empty string are falsy). -/
def truthy (a : Option String) : Option String :=
  match a with
  | none => none
  | some s => if s = "" then none else some s

/-- The CIDR size argument computed at the `reserve_cidr` call site
(line 178). -/
def cidrSize (cfg : Config) : Int :=
  addressSize (coresOfTpuType cfg.TPU_TYPE) coreRatio

/-- The stages of `main`, in program order, with the events they emit and the
error handling each one has in the source. -/
def stageList (cfg : Config) (sa : String) (c : Collab) : List StageSpec :=
  (if cfg.PREPROCESS then
    [StageSpec.call Event.preprocess (c StageId.preprocessStage)
      (some "Preprocessing failed. Aborting training.")]
  else []) ++
  [StageSpec.call (Event.createBucket cfg.JOB_ID cfg.STORAGE_LOCATION) (c StageId.bucketStage)
    (some "Could not create the bucket for this training job."),
  StageSpec.call (Event.uploadDir ("./" ++ cfg.DATA_DIR)) (c StageId.uploadStage)
    (some "Could not upload training data to the bucket."),
  StageSpec.call (Event.reserveCidr cfg.JOB_ID (cidrSize cfg) (truthy (some cfg.TPU_ADDRESS)))
    (c StageId.reserveStage) (some "Could not reserve a CIDR for this TPU node."),
  StageSpec.call (Event.createNode cfg.JOB_ID) (c StageId.nodeSubmitStage)
    (some "Could not create a new TPU device."),
  StageSpec.poll (c StageId.nodePollStage),
  StageSpec.call (Event.grantAccess sa "roles/storage.objectAdmin") (c StageId.grantStage) none,
  StageSpec.callLogged Event.runJob (c StageId.jobStage),
  StageSpec.call (Event.deleteNode cfg.JOB_ID) (c StageId.deleteNodeStage) none,
  StageSpec.call (Event.releaseCidr cfg.JOB_ID) (c StageId.releaseStage) none,
  StageSpec.call (Event.downloadBlobs cfg.OUTPUT_DIR ("results-" ++ cfg.JOB_ID))
    (c StageId.downloadStage) none,
  StageSpec.call (Event.deleteBlobs cfg.DATA_DIR) (c StageId.deleteBlobsStage) none]

/-- Model of `main`: run the stages against the collaborator, producing the
ordered trace of observed calls, or the raised error. -/
def runMain (cfg : Config) (sa : String) (c : Collab) : Except String (List Event) :=
  runSteps [] (stageList cfg sa c)

/-- The trace of a fully successful run. -/
def successTrace (cfg : Config) (sa : String) : List Event :=
  (if cfg.PREPROCESS then [Event.preprocess] else []) ++
  [Event.createBucket cfg.JOB_ID cfg.STORAGE_LOCATION,
  Event.uploadDir ("./" ++ cfg.DATA_DIR),
  Event.reserveCidr cfg.JOB_ID (cidrSize cfg) (truthy (some cfg.TPU_ADDRESS)),
  Event.createNode cfg.JOB_ID,
  Event.grantAccess sa "roles/storage.objectAdmin",
  Event.runJob,
  Event.deleteNode cfg.JOB_ID,
  Event.releaseCidr cfg.JOB_ID,
  Event.downloadBlobs cfg.OUTPUT_DIR ("results-" ++ cfg.JOB_ID),
  Event.deleteBlobs cfg.DATA_DIR]

/-- The trace of a run in which only the training job fails: the failure is
logged and every later call still happens. -/
def jobFailTrace (cfg : Config) (sa m : String) : List Event :=
  (if cfg.PREPROCESS then [Event.preprocess] else []) ++
  [Event.createBucket cfg.JOB_ID cfg.STORAGE_LOCATION,
  Event.uploadDir ("./" ++ cfg.DATA_DIR),
  Event.reserveCidr cfg.JOB_ID (cidrSize cfg) (truthy (some cfg.TPU_ADDRESS)),
  Event.createNode cfg.JOB_ID,
  Event.grantAccess sa "roles/storage.objectAdmin",
  Event.runJob,
  Event.logJobFailure m,
  Event.deleteNode cfg.JOB_ID,
  Event.releaseCidr cfg.JOB_ID,
  Event.downloadBlobs cfg.OUTPUT_DIR ("results-" ++ cfg.JOB_ID),
  Event.deleteBlobs cfg.DATA_DIR]

theorem runMain_collabOK (cfg : Config) (sa : String) :
    runMain cfg sa collabOK = Except.ok (successTrace cfg sa) := by
  cases cfg with
  | mk p1 p2 p3 p4 p5 p6 p7 p8 p9 p10 pp p12 p13 => cases pp <;> rfl

theorem runMain_jobFail (cfg : Config) (sa m : String) :
    runMain cfg sa (failAt StageId.jobStage m) = Except.ok (jobFailTrace cfg sa m) := by
  cases cfg with
  | mk p1 p2 p3 p4 p5 p6 p7 p8 p9 p10 pp p12 p13 => cases pp <;> rfl

def isDeleteNode : Event → Bool
  | Event.deleteNode _ => true
  | _ => false

def isReleaseCidr : Event → Bool
  | Event.releaseCidr _ => true
  | _ => false

def isRunJob : Event → Bool
  | Event.runJob => true
  | _ => false

/-- The first call satisfying `p` happens strictly before the first call
satisfying `q`, and a `q`-call does happen. -/
def before (p q : Event → Bool) (t : List Event) : Prop :=
  t.findIdx p < t.findIdx q ∧ t.findIdx q < t.length

/-- The default module configuration of `tpu_automate_training.py` with no
environment variables set (the random token of the generated `JOB_ID` is
fixed to `0`). -/
def defaultConfig : Config :=
  ⟨"my-project", "default", "us-central1-c", "v2-8", "1.14", "my-project-tpu-0",
   false, false, tpuAddressValue none, "us-central1", true, "data/", "output/"⟩

/-- The service-account identity returned by the node-creation call. -/
def saDefault : String := "service-tpu@example.iam.gserviceaccount.com"

/-! ### C3 -/

/-- C3: in every successful run, the compute-node deletion call occurs
strictly before the address-release call, so the reserved range is released
only after the node referencing it is gone. -/
theorem node_deleted_before_release (cfg : Config) (sa : String) :
    runMain cfg sa collabOK = Except.ok (successTrace cfg sa) ∧
    before isDeleteNode isReleaseCidr (successTrace cfg sa) := by
  refine ⟨runMain_collabOK cfg sa, ?_⟩
  rw [before, successTrace]
  cases hp : cfg.PREPROCESS <;>
    simp [List.findIdx_cons, isDeleteNode, isReleaseCidr]

/-! ### C4 -/

/-- C4: when the training job fails, the failure is logged and the run still
completes: the teardown calls (node deletion, then address release) and the
remaining steps are all observed, in order, after the job step. -/
theorem job_failure_teardown_runs (cfg : Config) (sa m : String) :
    runMain cfg sa (failAt StageId.jobStage m) = Except.ok (jobFailTrace cfg sa m) ∧
    Event.logJobFailure m ∈ jobFailTrace cfg sa m ∧
    Event.deleteNode cfg.JOB_ID ∈ jobFailTrace cfg sa m ∧
    Event.releaseCidr cfg.JOB_ID ∈ jobFailTrace cfg sa m ∧
    before isRunJob isDeleteNode (jobFailTrace cfg sa m) ∧
    before isDeleteNode isReleaseCidr (jobFailTrace cfg sa m) := by
  refine ⟨runMain_jobFail cfg sa m, ?_, ?_, ?_, ?_, ?_⟩ <;>
    (cases hp : cfg.PREPROCESS <;>
      simp [jobFailTrace, hp, before, List.findIdx_cons, isRunJob, isDeleteNode, isReleaseCidr])

/-! ### C6 -/

/-- C6 (counterexample): a failure of the access-grant stage (the
`tpu_bucket_access` call, which `main` does not wrap in any `try/except`)
propagates with the collaborator's own message unchanged — it is not
re-wrapped with a stage-specific message. -/
theorem grant_failure_not_rewrapped_cex :
    runMain defaultConfig saDefault (failAt StageId.grantStage "iam policy write failed") =
      Except.error "iam policy write failed" := rfl

/-- C6 (amended): only the preprocessing, bucket-creation, upload and
CIDR-reservation stages, plus the node-creation submission, re-wrap a
collaborator failure — each with a fixed stage-specific message that replaces
the original error text; failures in node-creation polling, the access-grant
stage and every teardown stage (node deletion, address release, results
download, data deletion) propagate unchanged. -/
theorem stage_failure_wrapping (cfg : Config) (sa m : String) :
    (cfg.PREPROCESS = true →
      runMain cfg sa (failAt StageId.preprocessStage m) =
        Except.error "Preprocessing failed. Aborting training.") ∧
    runMain cfg sa (failAt StageId.bucketStage m) =
      Except.error "Could not create the bucket for this training job." ∧
    runMain cfg sa (failAt StageId.uploadStage m) =
      Except.error "Could not upload training data to the bucket." ∧
    runMain cfg sa (failAt StageId.reserveStage m) =
      Except.error "Could not reserve a CIDR for this TPU node." ∧
    runMain cfg sa (failAt StageId.nodeSubmitStage m) =
      Except.error "Could not create a new TPU device." ∧
    runMain cfg sa (failAt StageId.nodePollStage m) = Except.error m ∧
    runMain cfg sa (failAt StageId.grantStage m) = Except.error m ∧
    runMain cfg sa (failAt StageId.deleteNodeStage m) = Except.error m ∧
    runMain cfg sa (failAt StageId.releaseStage m) = Except.error m ∧
    runMain cfg sa (failAt StageId.downloadStage m) = Except.error m ∧
    runMain cfg sa (failAt StageId.deleteBlobsStage m) = Except.error m := by
  cases cfg with
  | mk p1 p2 p3 p4 p5 p6 p7 p8 p9 p10 pp p12 p13 =>
    cases pp
    · exact ⟨fun h => Bool.noConfusion h, rfl, rfl, rfl, rfl, rfl, rfl, rfl, rfl, rfl, rfl⟩
    · exact ⟨fun _ => rfl, rfl, rfl, rfl, rfl, rfl, rfl, rfl, rfl, rfl, rfl⟩

theorem stage_failure_wrapping_witness :
    runMain defaultConfig saDefault (failAt StageId.preprocessStage "disk full") =
      Except.error "Preprocessing failed. Aborting training." ∧
    runMain defaultConfig saDefault (failAt StageId.grantStage "disk full") =
      Except.error "disk full" :=
  ⟨(stage_failure_wrapping defaultConfig saDefault "disk full").1 rfl,
   (stage_failure_wrapping defaultConfig saDefault "disk full").2.2.2.2.2.2.1⟩

/-! ### C7 -/

/-- C7 (code bug): with the `TPU_ADDRESS` environment variable unset, the
module default is the *string* `"None"` (line 46), which is truthy, so
`reserve_cidr` adds `address: "None"` to the reservation request body instead
of omitting the field and letting the provider auto-select a free range —
contradicting the comments at lines 151-152 and 169-171 of the source.
The trace of the default run shows the reservation call carrying the
explicit address field `some "None"`, never `none`. -/
theorem tpu_address_default_bug :
    tpuAddressValue none = "None" ∧
    truthy (some (tpuAddressValue none)) = some "None" ∧
    runMain defaultConfig saDefault collabOK =
      Except.ok (successTrace defaultConfig saDefault) ∧
    Event.reserveCidr "my-project-tpu-0" 29 (some "None") ∈
      successTrace defaultConfig saDefault ∧
    (∀ nm sz a, Event.reserveCidr nm sz a ∈ successTrace defaultConfig saDefault →
      a = some "None") := by
  have h29 : cidrSize defaultConfig = 29 := by
    have h8 : bit_length 8 = 4 := by
      rw [bit_length_eq]; norm_num
      rw [bit_length_eq]; norm_num
      rw [bit_length_eq]; norm_num
      rw [bit_length_eq]; norm_num
      rw [bit_length_eq]
      norm_num
    have hcore : coresOfTpuType "v2-8" = 8 := rfl
    have hT : defaultConfig.TPU_TYPE = "v2-8" := rfl
    rw [cidrSize, hT, hcore, addressSize]
    norm_num [h8, coreRatio]
  have ht : truthy (some defaultConfig.TPU_ADDRESS) = some "None" := rfl
  refine ⟨rfl, rfl, runMain_collabOK defaultConfig saDefault, ?_, ?_⟩
  · rw [successTrace, h29, ht]
    simp [defaultConfig]
  · intro nm sz a hmem
    rw [successTrace, h29, ht] at hmem
    simp [defaultConfig] at hmem
    rcases hmem with ⟨h1, h2, h3⟩
    rw [h3]

/-! ### C9 -/

/-- The container prefix an event deletes, when the event is a deletion. -/
def eventDeletePre : Event → Option String
  | Event.deleteBlobs p => some p
  | _ => none

/-- The deletion prefixes a stage list would emit on a successful run. -/
def specDeletes : List StageSpec → List String
  | [] => []
  | StageSpec.call e _ _ :: rest => (eventDeletePre e).toList ++ specDeletes rest
  | StageSpec.callLogged e _ :: rest => (eventDeletePre e).toList ++ specDeletes rest
  | StageSpec.poll _ :: rest => specDeletes rest

theorem filterMap_singleton (f : Event → Option String) (e : Event) :
    List.filterMap f [e] = (f e).toList := by
  cases h : f e <;> simp [h]

theorem runSteps_ok_deletes :
    ∀ (ss : List StageSpec) (t tf : List Event), runSteps t ss = Except.ok tf →
      tf.filterMap eventDeletePre = t.filterMap eventDeletePre ++ specDeletes ss := by
  intro ss
  induction ss with
  | nil =>
    intro t tf h
    rw [runSteps] at h
    injection h with h
    subst h
    rw [specDeletes, List.append_nil]
  | cons s rest ih =>
    intro t tf h
    cases s with
    | call e err w =>
      cases err with
      | none =>
        simp only [runSteps] at h
        rw [ih _ _ h, specDeletes, List.filterMap_append, filterMap_singleton, List.append_assoc]
      | some m =>
        simp only [runSteps] at h
        exact Except.noConfusion h
    | callLogged e err =>
      cases err with
      | none =>
        simp only [runSteps] at h
        rw [ih _ _ h, specDeletes, List.filterMap_append, filterMap_singleton, List.append_assoc]
      | some m =>
        simp only [runSteps] at h
        rw [ih _ _ h, specDeletes, List.filterMap_append, List.append_assoc]
        have h2 : List.filterMap eventDeletePre [e, Event.logJobFailure m] =
            (eventDeletePre e).toList := by
          have hlog : eventDeletePre (Event.logJobFailure m) = none := rfl
          cases h3 : eventDeletePre e <;> simp [List.filterMap_cons, h3, hlog]
        rw [h2]
    | poll err =>
      cases err with
      | none =>
        simp only [runSteps] at h
        rw [ih _ _ h, specDeletes]
      | some m =>
        simp only [runSteps] at h
        exact Except.noConfusion h

theorem isPrefixOf_head (a b : Char) (as bs l : List Char)
    (ha : (a :: as).isPrefixOf l = true) (hb : (b :: bs).isPrefixOf l = true) : a = b := by
  cases l with
  | nil => exact absurd ha (by simp [List.isPrefixOf])
  | cons c cs =>
    simp [List.isPrefixOf] at ha hb
    rw [ha.1, hb.1]

theorem hasPre_output_not_data (k : String) (h : hasPre "output/" k = true) :
    hasPre "data/" k = false := by
  cases hd : hasPre "data/" k
  · rfl
  · have h1 : ('o' :: "utput/".toList).isPrefixOf k.toList = true := h
    have h2 : ('d' :: "ata/".toList).isPrefixOf k.toList = true := hd
    have h3 := isPrefixOf_head 'o' 'd' _ _ _ h1 h2
    exact absurd h3 (by decide)

/-- C9: in every complete run with the default configuration, the only
deletion call targets the input-data prefix `"data/"`; no deletion targets
the results prefix `"output/"`, and every object under `"output/"` survives
the `delete_blobs` call the run makes. -/
theorem only_data_deleted (c : Collab) (t : List Event)
    (h : runMain defaultConfig saDefault c = Except.ok t) :
    t.filterMap eventDeletePre = ["data/"] ∧
    (∀ p, Event.deleteBlobs p ∈ t → p = "data/") ∧
    (∀ (bucket : List String) (k : String), hasPre "output/" k = true → k ∈ bucket →
      k ∈ deleteBlobsRun bucket "data/" false) := by
  have h1 := runSteps_ok_deletes (stageList defaultConfig saDefault c) [] t h
  have h2 : specDeletes (stageList defaultConfig saDefault c) = ["data/"] := rfl
  rw [h2] at h1
  have hmain : t.filterMap eventDeletePre = ["data/"] := by
    rw [h1]
    rfl
  refine ⟨hmain, ?_, ?_⟩
  · intro p hp
    have hmem : p ∈ t.filterMap eventDeletePre :=
      List.mem_filterMap.2 ⟨Event.deleteBlobs p, hp, rfl⟩
    rw [hmain] at hmem
    simpa using hmem
  · intro bucket k hk hmem
    have hd : delete_blobs bucket "data/" false =
        Except.ok (bucket.filter (fun b => !(hasPre "data/" b))) := by
      rw [delete_blobs, if_neg]
      intro hcon
      exact absurd hcon.1 (by decide)
    rw [deleteBlobsRun, hd]
    exact List.mem_filter.2 ⟨hmem, by rw [hasPre_output_not_data k hk]; rfl⟩

theorem only_data_deleted_witness :
    hasPre "output/" "output/model.ckpt" = true ∧
    "output/model.ckpt" ∈ ["data/train.bin", "output/model.ckpt"] ∧
    "output/model.ckpt" ∈ deleteBlobsRun ["data/train.bin", "output/model.ckpt"] "data/" false := by
  have h := only_data_deleted collabOK (successTrace defaultConfig saDefault)
    (runMain_collabOK defaultConfig saDefault)
  exact ⟨rfl, by simp,
    h.2.2 ["data/train.bin", "output/model.ckpt"] "output/model.ckpt" rfl (by simp)⟩
